import Mathlib

/-! Shallow embedding of the adaptive jitter-buffer core of the
`expo-audio-stream` repository (RingBuffer, FrameProcessor,
AudioBufferManager, RetryHandler), together with theorems checking the
natural-language specification against the code.

Modelling conventions:
* JavaScript `number` values (durations, delays, config fields, byte-size
  estimates) are modelled as `ℚ`; array indices, sizes and sequence numbers
  are `ℕ`.
* The JS backing array `new Array(capacity).fill(null)` of the ring buffer
  is modelled as a total function `Nat → Option IAudioFrame`; the code only
  ever indexes it modulo `capacity`.
* Thrown-and-caught JS exceptions are modelled with `Option`: `none` marks
  the thrown case, and the catching caller pattern-matches on it.
* `Date.now()` and `Math.random()` are modelled as explicit inputs. -/

namespace ExpoAudioStream

/-- Payload stored inside a processed frame (`IAudioPlayPayload` after
normalization: `audioData` is the normalized base64 string). -/
structure FramePayload where
  audioData : List Char
  isFirst : Bool
  isFinal : Bool
deriving DecidableEq

/-- A processed audio frame (`IAudioFrame` in the repository's types). -/
structure IAudioFrame where
  sequenceNumber : Nat
  data : FramePayload
  duration : ℚ
  timestamp : Nat
deriving DecidableEq

/-- Circular frame store (`RingBuffer` in `RingBuffer.ts`).
`buffer` models the fixed-size JS backing array; `head` is the next write
position, `tail` the next read position, `size` the occupied count. -/
structure RingBuffer where
  buffer : Nat → Option IAudioFrame
  capacity : Nat
  head : Nat
  tail : Nat
  size : Nat

/-- Constructor `new RingBuffer(capacity)`: all slots null, indices and size zero. -/
def RingBuffer.make (capacity : Nat) : RingBuffer :=
  { buffer := fun _ => none, capacity := capacity, head := 0, tail := 0, size := 0 }

/-- Embedding of `RingBuffer.push`: if full, advance `tail` to discard the oldest frame,
then write at `head`; always returns `true`. -/
def RingBuffer.push (rb : RingBuffer) (frame : IAudioFrame) : Bool × RingBuffer :=
  let rb1 :=
    if rb.capacity ≤ rb.size then
      { rb with tail := (rb.tail + 1) % rb.capacity, size := rb.size - 1 }
    else rb
  (true,
   { rb1 with
      buffer := Function.update rb1.buffer rb1.head (some frame),
      head := (rb1.head + 1) % rb1.capacity,
      size := rb1.size + 1 })

/-- Embedding of `RingBuffer.shift`: remove and return the oldest frame (`null` if empty). -/
def RingBuffer.shift (rb : RingBuffer) : Option IAudioFrame × RingBuffer :=
  if rb.size = 0 then (none, rb)
  else
    (rb.buffer rb.tail,
     { rb with
        buffer := Function.update rb.buffer rb.tail none,
        tail := (rb.tail + 1) % rb.capacity,
        size := rb.size - 1 })

/-- The slot-clearing loop of `RingBuffer.dropOldest`: clear the slot at
`tail` and advance `tail`, repeated `toDrop` times. -/
def RingBuffer.dropLoop (cap : Nat) :
    (Nat → Option IAudioFrame) → Nat → Nat → (Nat → Option IAudioFrame) × Nat
  | buffer, tail, 0 => (buffer, tail)
  | buffer, tail, n + 1 =>
      RingBuffer.dropLoop cap (Function.update buffer tail none) ((tail + 1) % cap) n

/-- Embedding of `RingBuffer.dropOldest(count)`: evict up to `count` oldest frames and
return the number actually evicted. -/
def RingBuffer.dropOldest (rb : RingBuffer) (count : Nat) : Nat × RingBuffer :=
  let toDrop := min count rb.size
  let bt := RingBuffer.dropLoop rb.capacity rb.buffer rb.tail toDrop
  (toDrop, { rb with buffer := bt.1, tail := bt.2, size := rb.size - toDrop })

/-- Embedding of `RingBuffer.clear`: null out every slot and reset indices and size. -/
def RingBuffer.clear (rb : RingBuffer) : RingBuffer :=
  { rb with buffer := fun _ => none, head := 0, tail := 0, size := 0 }

/-- The summation loop of `RingBuffer.getTotalDurationMs`: starting at
`index`, visit `n` slots (advancing `index = (index + 1) % cap` each step),
adding the duration of each non-null slot. -/
def RingBuffer.durLoop (buffer : Nat → Option IAudioFrame) (cap : Nat) : Nat → Nat → ℚ
  | _, 0 => 0
  | index, n + 1 =>
      (match buffer index with
       | some f => f.duration
       | none => 0)
      + RingBuffer.durLoop buffer cap ((index + 1) % cap) n

/-- Embedding of `RingBuffer.getTotalDurationMs`: 0 when empty, otherwise the loop sum of
the durations of the `size` slots starting at `tail`. -/
def RingBuffer.getTotalDurationMs (rb : RingBuffer) : ℚ :=
  if rb.size = 0 then 0
  else RingBuffer.durLoop rb.buffer rb.capacity rb.tail rb.size

/-- The slot walk of `RingBuffer.forEach`: the frames held in the `n` slots
starting at `index` (advancing modulo `cap`), in store order, skipping null
slots exactly as the code's `if (frame)` does. -/
def RingBuffer.occList (buffer : Nat → Option IAudioFrame) (cap : Nat) :
    Nat → Nat → List IAudioFrame
  | _, 0 => []
  | index, n + 1 =>
      (match buffer index with
       | some f => [f]
       | none => [])
      ++ RingBuffer.occList buffer cap ((index + 1) % cap) n

/-- The currently occupied frames of the buffer, oldest to newest (the
sequence visited by `RingBuffer.forEach`). -/
def RingBuffer.toList (rb : RingBuffer) : List IAudioFrame :=
  RingBuffer.occList rb.buffer rb.capacity rb.tail rb.size

/-- Well-formedness of a ring-buffer state, as established by the
constructor and maintained by the operations: indices in range, `head`
determined by `tail + size`, occupancy within capacity, and every occupied
slot non-null. -/
structure RingBuffer.WF (rb : RingBuffer) : Prop where
  cap_pos : 0 < rb.capacity
  tail_lt : rb.tail < rb.capacity
  head_eq : rb.head = (rb.tail + rb.size) % rb.capacity
  size_le : rb.size ≤ rb.capacity
  occ : ∀ i < rb.size, (rb.buffer ((rb.tail + i) % rb.capacity)).isSome

theorem RingBuffer.make_wf (capacity : Nat) (h : 0 < capacity) :
    (RingBuffer.make capacity).WF := by
  refine ⟨h, h, ?_, Nat.zero_le _, ?_⟩
  · simp [RingBuffer.make]
  · intro i hi
    exact absurd hi (Nat.not_lt_zero i)

theorem RingBuffer.make_toList (capacity : Nat) :
    (RingBuffer.make capacity).toList = [] := by
  simp [RingBuffer.make, RingBuffer.toList, RingBuffer.occList]

/-- Distinct offsets below the capacity land on distinct slots. -/
theorem RingBuffer.mod_index_ne {cap t a b : Nat} (ha : a < cap) (hb : b < cap)
    (hab : a ≠ b) : (t + a) % cap ≠ (t + b) % cap := by
  intro h
  have h2 : Nat.ModEq cap a b := Nat.ModEq.add_left_cancel' t h
  have h3 : a % cap = b % cap := h2
  rw [Nat.mod_eq_of_lt ha, Nat.mod_eq_of_lt hb] at h3
  exact hab h3

/-- Unfolding the slot walk at its far end. -/
theorem RingBuffer.occList_snoc (buffer : Nat → Option IAudioFrame) (cap : Nat) :
    ∀ (n i : Nat), i < cap →
      RingBuffer.occList buffer cap i (n + 1)
        = RingBuffer.occList buffer cap i n
          ++ (match buffer ((i + n) % cap) with
              | some f => [f]
              | none => []) := by
  intro n
  induction n with
  | zero =>
      intro i hi
      simp [RingBuffer.occList, Nat.mod_eq_of_lt hi]
  | succ n ih =>
      intro i hi
      have hi1 : (i + 1) % cap < cap := Nat.mod_lt _ (Nat.lt_of_le_of_lt (Nat.zero_le i) hi)
      have step : RingBuffer.occList buffer cap i (n + 1 + 1)
          = (match buffer i with
             | some f => [f]
             | none => [])
            ++ RingBuffer.occList buffer cap ((i + 1) % cap) (n + 1) := rfl
      rw [step, ih ((i + 1) % cap) hi1]
      have hidx : ((i + 1) % cap + n) % cap = (i + (n + 1)) % cap := by
        rw [Nat.mod_add_mod]
        ring_nf
      rw [hidx]
      simp [RingBuffer.occList, List.append_assoc]

/-- The slot walk ignores an update to a slot it does not visit. -/
theorem RingBuffer.occList_update_ne (buffer : Nat → Option IAudioFrame)
    (cap : Nat) (j : Nat) (v : Option IAudioFrame) :
    ∀ (n i : Nat), i < cap → (∀ k < n, (i + k) % cap ≠ j) →
      RingBuffer.occList (Function.update buffer j v) cap i n
        = RingBuffer.occList buffer cap i n := by
  intro n
  induction n with
  | zero =>
      intro i _ _
      rfl
  | succ n ih =>
      intro i hi hvis
      have hi0 : i % cap = i := Nat.mod_eq_of_lt hi
      have hne : i ≠ j := by
        have := hvis 0 (Nat.succ_pos n)
        simpa [hi0] using this
      have hi1 : (i + 1) % cap < cap := Nat.mod_lt _ (Nat.lt_of_le_of_lt (Nat.zero_le i) hi)
      have hrest : ∀ k < n, ((i + 1) % cap + k) % cap ≠ j := by
        intro k hk
        have : ((i + 1) % cap + k) % cap = (i + (k + 1)) % cap := by
          rw [Nat.mod_add_mod]
          ring_nf
        rw [this]
        exact hvis (k + 1) (Nat.succ_lt_succ hk)
      have step1 : RingBuffer.occList (Function.update buffer j v) cap i (n + 1)
          = (match Function.update buffer j v i with
             | some f => [f]
             | none => [])
            ++ RingBuffer.occList (Function.update buffer j v) cap ((i + 1) % cap) n := rfl
      have step2 : RingBuffer.occList buffer cap i (n + 1)
          = (match buffer i with
             | some f => [f]
             | none => [])
            ++ RingBuffer.occList buffer cap ((i + 1) % cap) n := rfl
      rw [step1, step2, ih ((i + 1) % cap) hi1 hrest, Function.update_noteq hne]

/-- The duration loop computes the sum of the durations along the same walk
as `occList`, for any state whatsoever. -/
theorem RingBuffer.durLoop_eq (buffer : Nat → Option IAudioFrame) (cap : Nat) :
    ∀ (n i : Nat),
      RingBuffer.durLoop buffer cap i n
        = ((RingBuffer.occList buffer cap i n).map IAudioFrame.duration).sum := by
  intro n
  induction n with
  | zero =>
      intro i
      simp [RingBuffer.durLoop, RingBuffer.occList]
  | succ n ih =>
      intro i
      have step : RingBuffer.durLoop buffer cap i (n + 1)
          = (match buffer i with
             | some f => f.duration
             | none => 0)
            + RingBuffer.durLoop buffer cap ((i + 1) % cap) n := rfl
      rw [step, ih]
      cases h : buffer i <;> simp [RingBuffer.occList, h]

theorem RingBuffer.getTotalDurationMs_eq (rb : RingBuffer) :
    rb.getTotalDurationMs = (rb.toList.map IAudioFrame.duration).sum := by
  unfold RingBuffer.getTotalDurationMs RingBuffer.toList
  by_cases h : rb.size = 0
  · simp [h, RingBuffer.occList]
  · rw [if_neg h, RingBuffer.durLoop_eq]

/-- When the buffer is full, the write position coincides with the read
position (the slot holding the oldest frame). -/
theorem RingBuffer.head_eq_tail_of_full (rb : RingBuffer) (hwf : rb.WF)
    (hsz : rb.size = rb.capacity) : rb.head = rb.tail := by
  rw [hwf.head_eq, hsz, Nat.add_mod_right, Nat.mod_eq_of_lt hwf.tail_lt]

/-- A non-empty well-formed buffer's occupied walk starts with the frame in
the `tail` slot. -/
theorem RingBuffer.toList_cons_of_pos (rb : RingBuffer) (hwf : rb.WF)
    (hpos : 0 < rb.size) :
    ∃ g, rb.buffer rb.tail = some g
      ∧ rb.toList
          = g :: RingBuffer.occList rb.buffer rb.capacity
              ((rb.tail + 1) % rb.capacity) (rb.size - 1) := by
  have htail0 : (rb.tail + 0) % rb.capacity = rb.tail := by
    rw [Nat.add_zero, Nat.mod_eq_of_lt hwf.tail_lt]
  obtain ⟨g, hg⟩ : ∃ g, rb.buffer rb.tail = some g := by
    have h0 := hwf.occ 0 hpos
    rw [htail0] at h0
    exact Option.isSome_iff_exists.mp h0
  refine ⟨g, hg, ?_⟩
  have hsz1 : rb.size = (rb.size - 1) + 1 := by omega
  unfold RingBuffer.toList
  conv_lhs => rw [hsz1]
  show (match rb.buffer rb.tail with
        | some f => [f]
        | none => [])
      ++ RingBuffer.occList rb.buffer rb.capacity
          ((rb.tail + 1) % rb.capacity) (rb.size - 1)
      = g :: RingBuffer.occList rb.buffer rb.capacity
          ((rb.tail + 1) % rb.capacity) (rb.size - 1)
  rw [hg]
  rfl

/-- Effect of one `push` on a well-formed state: it preserves
well-formedness, caps the size at capacity, and appends the frame at the
newest end, evicting exactly the oldest frame when the buffer was full. -/
theorem RingBuffer.push_spec (rb : RingBuffer) (hwf : rb.WF) (f : IAudioFrame) :
    ((rb.push f).2).WF
    ∧ ((rb.push f).2).capacity = rb.capacity
    ∧ ((rb.push f).2).size = min (rb.size + 1) rb.capacity
    ∧ ((rb.push f).2).toList
        = (if rb.size = rb.capacity then rb.toList.drop 1 else rb.toList) ++ [f] := by
  by_cases hfull : rb.capacity ≤ rb.size
  · have hsz : rb.size = rb.capacity := Nat.le_antisymm hwf.size_le hfull
    have hcappos := hwf.cap_pos
    have hht : rb.head = rb.tail := rb.head_eq_tail_of_full hwf hsz
    have hs : (rb.push f).2
        = ⟨Function.update rb.buffer rb.tail (some f), rb.capacity,
           (rb.tail + 1) % rb.capacity, (rb.tail + 1) % rb.capacity,
           rb.size - 1 + 1⟩ := by
      simp [RingBuffer.push, hfull, hht]
    have hsize1 : rb.size - 1 + 1 = rb.capacity := by omega
    have htail1 : (rb.tail + 1) % rb.capacity < rb.capacity := Nat.mod_lt _ hcappos
    have htail0 : (rb.tail + 0) % rb.capacity = rb.tail := by
      rw [Nat.add_zero, Nat.mod_eq_of_lt hwf.tail_lt]
    have hidx : ∀ k, ((rb.tail + 1) % rb.capacity + k) % rb.capacity
        = (rb.tail + (1 + k)) % rb.capacity := by
      intro k
      rw [Nat.mod_add_mod, Nat.add_assoc]
    have hne_tail : ∀ k, 1 + k < rb.capacity →
        (rb.tail + (1 + k)) % rb.capacity ≠ rb.tail := by
      intro k hk hcontra
      exact RingBuffer.mod_index_ne hk hcappos (by omega)
        (hcontra.trans htail0.symm)
    refine ⟨?_, by rw [hs], ?_, ?_⟩
    · rw [hs]
      refine ⟨hcappos, htail1, ?_, ?_, ?_⟩
      · show (rb.tail + 1) % rb.capacity
            = ((rb.tail + 1) % rb.capacity + (rb.size - 1 + 1)) % rb.capacity
        rw [hsize1, Nat.add_mod_right, Nat.mod_eq_of_lt htail1]
      · show rb.size - 1 + 1 ≤ rb.capacity
        omega
      · intro i hi
        have hi' : i < rb.size - 1 + 1 := hi
        show (Function.update rb.buffer rb.tail (some f)
            (((rb.tail + 1) % rb.capacity + i) % rb.capacity)).isSome
        rw [hidx i]
        rcases Nat.lt_or_ge (1 + i) rb.capacity with hlt | hge
        · rw [Function.update_noteq (hne_tail i hlt)]
          exact hwf.occ (1 + i) (by omega)
        · have h1i : 1 + i = rb.capacity := by omega
          rw [h1i, Nat.add_mod_right, Nat.mod_eq_of_lt hwf.tail_lt,
            Function.update_same]
          rfl
    · rw [hs]
      show rb.size - 1 + 1 = min (rb.size + 1) rb.capacity
      omega
    · rw [hs, if_pos hsz]
      show RingBuffer.occList (Function.update rb.buffer rb.tail (some f))
          rb.capacity ((rb.tail + 1) % rb.capacity) (rb.size - 1 + 1)
          = rb.toList.drop 1 ++ [f]
      rw [RingBuffer.occList_snoc _ _ (rb.size - 1) _ htail1]
      have hlast : ((rb.tail + 1) % rb.capacity + (rb.size - 1)) % rb.capacity
          = rb.tail := by
        rw [Nat.mod_add_mod]
        have harith : rb.tail + 1 + (rb.size - 1) = rb.tail + rb.capacity := by
          omega
        rw [harith, Nat.add_mod_right, Nat.mod_eq_of_lt hwf.tail_lt]
      rw [hlast, Function.update_same]
      have hmatch : (match (some f : Option IAudioFrame) with
            | some f => [f]
            | none => ([] : List IAudioFrame)) = [f] := rfl
      rw [hmatch]
      have hcongr : RingBuffer.occList (Function.update rb.buffer rb.tail (some f))
          rb.capacity ((rb.tail + 1) % rb.capacity) (rb.size - 1)
          = RingBuffer.occList rb.buffer rb.capacity
              ((rb.tail + 1) % rb.capacity) (rb.size - 1) := by
        refine RingBuffer.occList_update_ne _ _ _ _ (rb.size - 1) _ htail1 ?_
        intro k hk
        rw [hidx k]
        exact hne_tail k (by omega)
      rw [hcongr]
      obtain ⟨g, _, hcons⟩ := rb.toList_cons_of_pos hwf (by omega)
      rw [hcons]
      simp
  · have hlt : rb.size < rb.capacity := Nat.lt_of_not_le hfull
    have hs : (rb.push f).2
        = ⟨Function.update rb.buffer rb.head (some f), rb.capacity,
           (rb.head + 1) % rb.capacity, rb.tail, rb.size + 1⟩ := by
      simp [RingBuffer.push, hfull]
    have hne_head : ∀ k < rb.size, (rb.tail + k) % rb.capacity ≠ rb.head := by
      intro k hk
      rw [hwf.head_eq]
      exact RingBuffer.mod_index_ne (by omega) hlt (by omega)
    refine ⟨?_, by rw [hs], ?_, ?_⟩
    · rw [hs]
      refine ⟨hwf.cap_pos, hwf.tail_lt, ?_, ?_, ?_⟩
      · show (rb.head + 1) % rb.capacity = (rb.tail + (rb.size + 1)) % rb.capacity
        rw [hwf.head_eq, Nat.mod_add_mod, Nat.add_assoc]
      · show rb.size + 1 ≤ rb.capacity
        omega
      · intro i hi
        have hi' : i < rb.size + 1 := hi
        show (Function.update rb.buffer rb.head (some f)
            ((rb.tail + i) % rb.capacity)).isSome
        rcases Nat.lt_or_ge i rb.size with hilt | hige
        · rw [Function.update_noteq (hne_head i hilt)]
          exact hwf.occ i hilt
        · have hieq : i = rb.size := by omega
          rw [hieq, ← hwf.head_eq, Function.update_same]
          rfl
    · rw [hs]
      show rb.size + 1 = min (rb.size + 1) rb.capacity
      omega
    · rw [hs, if_neg (by omega)]
      show RingBuffer.occList (Function.update rb.buffer rb.head (some f))
          rb.capacity rb.tail (rb.size + 1) = rb.toList ++ [f]
      rw [RingBuffer.occList_snoc _ _ rb.size _ hwf.tail_lt, ← hwf.head_eq,
        Function.update_same]
      have hmatch : (match (some f : Option IAudioFrame) with
            | some f => [f]
            | none => ([] : List IAudioFrame)) = [f] := rfl
      rw [hmatch]
      have hcongr : RingBuffer.occList (Function.update rb.buffer rb.head (some f))
          rb.capacity rb.tail rb.size
          = RingBuffer.occList rb.buffer rb.capacity rb.tail rb.size :=
        RingBuffer.occList_update_ne _ _ _ _ rb.size _ hwf.tail_lt hne_head
      rw [hcongr]
      rfl

/-- Pushing a whole list of frames in order (each push as in the code). -/
def RingBuffer.pushAll (rb : RingBuffer) (frames : List IAudioFrame) : RingBuffer :=
  frames.foldl (fun st f => (st.push f).2) rb

theorem RingBuffer.pushAll_nil (rb : RingBuffer) : rb.pushAll [] = rb := rfl

theorem RingBuffer.pushAll_cons (rb : RingBuffer) (f : IAudioFrame)
    (fs : List IAudioFrame) : rb.pushAll (f :: fs) = ((rb.push f).2).pushAll fs := rfl

/-- Invariant of a whole push sequence: the state stays well formed, the
size is capped at capacity, and the occupied frames are exactly the most
recent pushes — the oldest are the ones evicted. -/
theorem RingBuffer.pushAll_spec :
    ∀ (fs : List IAudioFrame) (rb : RingBuffer), rb.WF →
      (rb.pushAll fs).WF
      ∧ (rb.pushAll fs).capacity = rb.capacity
      ∧ (rb.pushAll fs).size = min (rb.size + fs.length) rb.capacity
      ∧ (rb.pushAll fs).toList
          = (rb.toList ++ fs).drop ((rb.size + fs.length) - rb.capacity) := by
  intro fs
  induction fs with
  | nil =>
      intro rb hwf
      have hsz : rb.size ≤ rb.capacity := hwf.size_le
      refine ⟨hwf, rfl, ?_, ?_⟩
      · rw [RingBuffer.pushAll_nil]
        simp
        omega
      · rw [RingBuffer.pushAll_nil]
        have h0 : rb.size + ([] : List IAudioFrame).length - rb.capacity = 0 := by
          simp
          omega
        rw [h0]
        simp
  | cons f fs ih =>
      intro rb hwf
      obtain ⟨hwf', hcap', hsize', htoList'⟩ := rb.push_spec hwf f
      obtain ⟨ihwf, ihcap, ihsize, ihtoList⟩ := ih ((rb.push f).2) hwf'
      rw [RingBuffer.pushAll_cons]
      refine ⟨ihwf, by rw [ihcap, hcap'], ?_, ?_⟩
      · rw [ihsize, hsize', hcap']
        simp
        omega
      · rw [ihtoList, htoList', hsize', hcap']
        by_cases hfull : rb.size = rb.capacity
        · rw [if_pos hfull]
          have hmin : min (rb.size + 1) rb.capacity = rb.capacity := by omega
          rw [hmin]
          have h1 : rb.capacity + fs.length - rb.capacity = fs.length := by omega
          have h2 : rb.size + (f :: fs).length - rb.capacity = fs.length + 1 := by
            simp
            omega
          rw [h1, h2]
          obtain ⟨g, _, hcons⟩ :=
            rb.toList_cons_of_pos hwf (by have := hwf.cap_pos; omega)
          rw [hcons]
          simp
        · rw [if_neg hfull]
          have hlt : rb.size < rb.capacity := by
            have := hwf.size_le
            omega
          have hmin : min (rb.size + 1) rb.capacity = rb.size + 1 := by omega
          rw [hmin]
          have harith : rb.size + 1 + fs.length - rb.capacity
              = rb.size + (f :: fs).length - rb.capacity := by
            simp
            omega
          rw [harith]
          simp

/-- C1: for every sequence of `push` calls on a fresh buffer of positive
capacity, `push` always returns `true`, the buffer never holds more than
`capacity` frames, and the occupied frames are always the last
`min (length, capacity)` pushed frames in push order — on a full buffer the
oldest occupied frame is the one evicted (FIFO eviction under overwrite). -/
theorem ringBuffer_push_never_fails_capacity_fifo (capacity : Nat)
    (hcap : 0 < capacity) (frames : List IAudioFrame) :
    (∀ (st : RingBuffer) (f : IAudioFrame), (st.push f).1 = true)
    ∧ ((RingBuffer.make capacity).pushAll frames).size ≤ capacity
    ∧ ((RingBuffer.make capacity).pushAll frames).toList
        = frames.drop (frames.length - capacity) := by
  obtain ⟨_, _, hsize, htoList⟩ :=
    RingBuffer.pushAll_spec frames (RingBuffer.make capacity)
      (RingBuffer.make_wf capacity hcap)
  refine ⟨fun st f => rfl, ?_, ?_⟩
  · rw [hsize]
    simp [RingBuffer.make]
  · rw [htoList, RingBuffer.make_toList]
    simp [RingBuffer.make]

/-- A concrete frame used by the witnesses. -/
def sampleFrame (n : Nat) (d : ℚ) : IAudioFrame :=
  ⟨n, ⟨[], false, false⟩, d, 0⟩

/-- Witness for C1: pushing three frames into a fresh buffer of capacity 2
keeps the two most recent frames, evicting the oldest. -/
theorem ringBuffer_push_never_fails_capacity_fifo_witness :
    0 < 2
    ∧ ((∀ (st : RingBuffer) (f : IAudioFrame), (st.push f).1 = true)
       ∧ ((RingBuffer.make 2).pushAll
            [sampleFrame 0 10, sampleFrame 1 20, sampleFrame 2 30]).size ≤ 2
       ∧ ((RingBuffer.make 2).pushAll
            [sampleFrame 0 10, sampleFrame 1 20, sampleFrame 2 30]).toList
           = [sampleFrame 0 10, sampleFrame 1 20, sampleFrame 2 30].drop
               ([sampleFrame 0 10, sampleFrame 1 20, sampleFrame 2 30].length - 2)) :=
  ⟨by decide,
   ringBuffer_push_never_fails_capacity_fifo 2 (by decide)
     [sampleFrame 0 10, sampleFrame 1 20, sampleFrame 2 30]⟩

/-- One `RingBuffer` operation of the kind interleaved by the buffer
manager: `push`, `shift` (pop) or `dropOldest`. -/
inductive BufferOp where
  | push (frame : IAudioFrame)
  | shift
  | dropOldest (count : Nat)

/-- Apply one operation to a state (discarding the returned value). -/
def RingBuffer.applyOp (rb : RingBuffer) : BufferOp → RingBuffer
  | .push f => (rb.push f).2
  | .shift => rb.shift.2
  | .dropOldest n => (rb.dropOldest n).2

/-- Apply a whole interleaving of operations, in order. -/
def RingBuffer.applyOps (rb : RingBuffer) (ops : List BufferOp) : RingBuffer :=
  ops.foldl RingBuffer.applyOp rb

/-- C3: after any interleaving of `push`, `shift` and `dropOldest` on a
fresh buffer, `getTotalDurationMs` returns exactly the sum of the `duration`
fields of the currently occupied slots, and in particular 0 when the buffer
is empty. -/
theorem getTotalDurationMs_sum_of_occupied (capacity : Nat) (ops : List BufferOp) :
    ((RingBuffer.make capacity).applyOps ops).getTotalDurationMs
      = ((((RingBuffer.make capacity).applyOps ops).toList).map
          IAudioFrame.duration).sum
    ∧ (((RingBuffer.make capacity).applyOps ops).size = 0 →
        ((RingBuffer.make capacity).applyOps ops).getTotalDurationMs = 0) :=
  ⟨RingBuffer.getTotalDurationMs_eq _,
   fun h => by unfold RingBuffer.getTotalDurationMs; rw [if_pos h]⟩

/-- Witness for C3: a concrete interleaving — two pushes, one shift, one
dropOldest — leaving an empty buffer with total duration 0. -/
theorem getTotalDurationMs_sum_of_occupied_witness :
    ((RingBuffer.make 2).applyOps
        [.push (sampleFrame 0 10), .push (sampleFrame 1 20), .shift,
         .dropOldest 5]).getTotalDurationMs
      = ((((RingBuffer.make 2).applyOps
            [.push (sampleFrame 0 10), .push (sampleFrame 1 20), .shift,
             .dropOldest 5]).toList).map IAudioFrame.duration).sum
    ∧ ((RingBuffer.make 2).applyOps
        [.push (sampleFrame 0 10), .push (sampleFrame 1 20), .shift,
         .dropOldest 5]).size = 0
    ∧ ((RingBuffer.make 2).applyOps
        [.push (sampleFrame 0 10), .push (sampleFrame 1 20), .shift,
         .dropOldest 5]).getTotalDurationMs = 0 := by
  obtain ⟨h1, h2⟩ := getTotalDurationMs_sum_of_occupied 2
    [.push (sampleFrame 0 10), .push (sampleFrame 1 20), .shift, .dropOldest 5]
  exact ⟨h1, by decide, h2 (by decide)⟩

/-- Embedding of `AudioDataType` from the repository's types: a base64 string, a
`Uint8Array`, or an `ArrayBuffer` (both binary shapes carry a byte list). -/
inductive AudioDataType where
  | str (s : List Char)
  | uint8Array (bytes : List Nat)
  | arrayBuffer (bytes : List Nat)
deriving DecidableEq

/-- Embedding of `IAudioPlayPayload`: the chunk handed to `parseChunk`; the optional
flags model the `?:` fields. -/
structure IAudioPlayPayload where
  audioData : AudioDataType
  isFirst : Option Bool
  isFinal : Option Bool
deriving DecidableEq

/-- The 64-character base64 alphabet string used by the manual encoder. -/
def base64Chars : List Char :=
  "ABCDEFGHIJKLMNOPQRSTUVWXYZabcdefghijklmnopqrstuvwxyz0123456789+/".toList

/-- Lookup `chars.charAt(i)` on the alphabet (the index is always below 64). -/
def b64CharAt (i : Nat) : Char := base64Chars.getD i 'A'

/-- Membership in the base64 alphabet `[A-Za-z0-9+/]` of the validation
regex. -/
def isBase64AlphabetChar (c : Char) : Bool :=
  ('A' ≤ c && c ≤ 'Z') || ('a' ≤ c && c ≤ 'z') || ('0' ≤ c && c ≤ '9')
    || c == '+' || c == '/'

/-- Characters matched by the `\s` class of the whitespace-removal
`replace` call in `_sanitizeBase64` (the ASCII whitespace characters;
exotic Unicode space classes are not modelled, no claim involves them). -/
def isJsWhitespace (c : Char) : Bool :=
  c == ' ' || c == '\t' || c == '\n' || c == '\x0d' || c == '\x0b' || c == '\x0c'

/-- The whitespace-removal step of `_sanitizeBase64`. -/
def stripJsWhitespace (s : List Char) : List Char :=
  s.filter (fun c => !(isJsWhitespace c))

/-- The test of `FrameProcessor._validBase64Regex`
(`^[A-Za-z0-9+/]*={0,2}$`): every character before the trailing padding is
in the alphabet and there are at most two trailing `=`. -/
def validBase64Test (s : List Char) : Bool :=
  let body := (s.reverse.dropWhile (fun c => c == '=')).reverse
  (s.length - body.length ≤ 2) && body.all isBase64AlphabetChar

/-- Embedding of `FrameProcessor._sanitizeBase64`: throws (`none`) on an empty string or
a format-check failure, otherwise strips whitespace and repairs truncated
padding to a multiple-of-4 length. -/
def FrameProcessor.sanitizeBase64 (base64Data : List Char) : Option (List Char) :=
  if base64Data.isEmpty then none
  else
    let cleaned := stripJsWhitespace base64Data
    if !(validBase64Test cleaned) then none
    else
      let remainder := cleaned.length % 4
      if remainder = 2 then some (cleaned ++ ['=', '='])
      else if remainder = 3 then some (cleaned ++ ['='])
      else some cleaned

/-- Embedding of `FrameProcessor._binaryToBase64` (the repository's manual encoder):
three input bytes become four alphabet characters; a final group of one or
two bytes is padded with `=`. -/
def FrameProcessor.binaryToBase64 : List Nat → List Char
  | [] => []
  | [a] =>
      let bitmap := a <<< 16
      [b64CharAt ((bitmap >>> 18) &&& 63), b64CharAt ((bitmap >>> 12) &&& 63),
       '=', '=']
  | [a, b] =>
      let bitmap := a <<< 16 ||| b <<< 8
      [b64CharAt ((bitmap >>> 18) &&& 63), b64CharAt ((bitmap >>> 12) &&& 63),
       b64CharAt ((bitmap >>> 6) &&& 63), '=']
  | a :: b :: c :: rest =>
      let bitmap := a <<< 16 ||| b <<< 8 ||| c
      [b64CharAt ((bitmap >>> 18) &&& 63), b64CharAt ((bitmap >>> 12) &&& 63),
       b64CharAt ((bitmap >>> 6) &&& 63), b64CharAt (bitmap &&& 63)]
      ++ FrameProcessor.binaryToBase64 rest

/-- Embedding of `FrameProcessor._getByteSize`: for a string, the decoded-size estimate
`length * 3 / 4 - paddingCount` (JS float division, hence `ℚ`); for binary
shapes, the byte length. -/
def FrameProcessor.getByteSize : AudioDataType → ℚ
  | .str s =>
      ((s.length : ℚ) * 3) / 4 - ((s.filter (fun c => c == '=')).length : ℚ)
  | .uint8Array bytes => (bytes.length : ℚ)
  | .arrayBuffer bytes => (bytes.length : ℚ)

/-- The 64 KiB safety ceiling `_maxReasonableChunkSizeBytes`. -/
def maxReasonableChunkSizeBytes : ℚ := 64 * 1024

/-- JS truthiness of `payload.audioData`: an empty string is falsy, typed
arrays and array buffers are objects and always truthy. -/
def audioDataTruthy : AudioDataType → Bool
  | .str s => !s.isEmpty
  | .uint8Array _ => true
  | .arrayBuffer _ => true

/-- Embedding of `FrameProcessor._isValidPayload`: the payload object itself is always
present in this model and its type is one of the three accepted shapes by
construction, so those checks always pass; the remaining checks are
truthiness of `audioData`, a non-zero byte size, and the safety ceiling. -/
def FrameProcessor.isValidPayload (payload : IAudioPlayPayload) : Bool :=
  if !(audioDataTruthy payload.audioData) then false
  else
    let byteSize := FrameProcessor.getByteSize payload.audioData
    if byteSize = 0 then false
    else if maxReasonableChunkSizeBytes < byteSize then false
    else true

/-- Embedding of `FrameProcessor._normalizeAudioData`: strings are sanitized (which may
throw, i.e. `none`), binary shapes are encoded to base64. -/
def FrameProcessor.normalizeAudioData : AudioDataType → Option (List Char)
  | .str s => FrameProcessor.sanitizeBase64 s
  | .uint8Array bytes => some (FrameProcessor.binaryToBase64 bytes)
  | .arrayBuffer bytes => some (FrameProcessor.binaryToBase64 bytes)

/-- Model of `Math.round`: round half toward positive infinity, as a rational. -/
def jsRound (x : ℚ) : ℚ := (⌊x + 1 / 2⌋ : ℤ)

/-- Mutable state of a `FrameProcessor` instance. -/
structure FrameProcessor where
  sequenceNumber : Nat
  frameIntervalMs : ℚ
  sampleRate : ℚ
  bytesPerSample : ℚ
deriving DecidableEq

/-- Constructor `new FrameProcessor(frameIntervalMs, sampleRate, bytesPerSample)`. -/
def FrameProcessor.make (frameIntervalMs sampleRate bytesPerSample : ℚ) :
    FrameProcessor :=
  ⟨0, frameIntervalMs, sampleRate, bytesPerSample⟩

/-- Embedding of `FrameProcessor._calculateDuration`: estimate the decoded byte count of
the canonical payload, convert to samples and then milliseconds, fall back
to the nominal frame interval outside `(0, 1000]`, and round. -/
def FrameProcessor.calculateDuration (fp : FrameProcessor)
    (base64Data : List Char) : ℚ :=
  let paddingCount : ℚ := ((base64Data.filter (fun c => c == '=')).length : ℚ)
  let estimatedBytes := ((base64Data.length : ℚ) * 3) / 4 - paddingCount
  let sampleCount := estimatedBytes / fp.bytesPerSample
  let durationMs := sampleCount / fp.sampleRate * 1000
  if durationMs ≤ 0 ∨ 1000 < durationMs then fp.frameIntervalMs
  else jsRound durationMs

/-- Embedding of `FrameProcessor.parseChunk`: validate, normalize (a thrown error is
caught and yields the empty sequence), estimate the duration, and emit one
frame carrying the next sequence number and the current timestamp. -/
def FrameProcessor.parseChunk (fp : FrameProcessor) (now : Nat)
    (payload : IAudioPlayPayload) : List IAudioFrame × FrameProcessor :=
  if !(FrameProcessor.isValidPayload payload) then ([], fp)
  else
    match FrameProcessor.normalizeAudioData payload.audioData with
    | none => ([], fp)
    | some normalizedData =>
        let estimatedDuration := fp.calculateDuration normalizedData
        ([{ sequenceNumber := fp.sequenceNumber,
            data := { audioData := normalizedData,
                      isFirst := payload.isFirst.getD false,
                      isFinal := payload.isFinal.getD false },
            duration := estimatedDuration,
            timestamp := now }],
         { fp with sequenceNumber := fp.sequenceNumber + 1 })

/-- Embedding of `FrameProcessor.reset`: reset sequence numbering to 0. -/
def FrameProcessor.reset (fp : FrameProcessor) : FrameProcessor :=
  { fp with sequenceNumber := 0 }

/-- Run a sequence of `parseChunk` calls (each with its own `Date.now()`
value), concatenating the emitted frames. -/
def FrameProcessor.processAll (fp : FrameProcessor) :
    List (Nat × IAudioPlayPayload) → List IAudioFrame × FrameProcessor
  | [] => ([], fp)
  | (now, p) :: rest =>
      let out := fp.parseChunk now p
      let outRest := out.2.processAll rest
      (out.1 ++ outRest.1, outRest.2)

theorem isValidPayload_false_of_size (p : IAudioPlayPayload)
    (h : FrameProcessor.getByteSize p.audioData = 0
       ∨ maxReasonableChunkSizeBytes < FrameProcessor.getByteSize p.audioData) :
    FrameProcessor.isValidPayload p = false := by
  unfold FrameProcessor.isValidPayload
  rcases h with h | h
  · by_cases ht : audioDataTruthy p.audioData <;> simp [ht, h]
  · by_cases ht : audioDataTruthy p.audioData
    · by_cases h0 : FrameProcessor.getByteSize p.audioData = 0 <;> simp [ht, h0, h]
    · simp [ht]

theorem sanitizeBase64_none_of_invalid (s : List Char)
    (h : validBase64Test (stripJsWhitespace s) = false) :
    FrameProcessor.sanitizeBase64 s = none := by
  unfold FrameProcessor.sanitizeBase64
  by_cases he : s.isEmpty
  · simp [he]
  · simp [he, h]

/-- C2 counterexample: `"QQ =="` contains a character outside the base64
alphabet (the space), yet `parseChunk` emits one frame for it — the
whitespace is stripped before validation. -/
theorem parseChunk_nonalphabet_char_accepted :
    (' ' ∈ "QQ ==".toList ∧ isBase64AlphabetChar ' ' = false)
    ∧ ((FrameProcessor.make 20 16000 2).parseChunk 0
        ⟨.str "QQ ==".toList, none, none⟩).1.length = 1 := by
  refine ⟨by decide, ?_⟩
  have hQ : "QQ ==".toList = ['Q', 'Q', ' ', '=', '='] := by decide
  rw [hQ]
  have hlen : (['Q', 'Q', ' ', '=', '='] : List Char).length = 5 := by decide
  have hfil : ((['Q', 'Q', ' ', '=', '='] : List Char).filter
      (fun c => c == '=')).length = 2 := by decide
  have hsize : FrameProcessor.getByteSize (.str ['Q', 'Q', ' ', '=', '='])
      = 7 / 4 := by
    simp only [FrameProcessor.getByteSize, hlen, hfil]
    norm_num
  have hvalid : FrameProcessor.isValidPayload
      ⟨.str ['Q', 'Q', ' ', '=', '='], none, none⟩ = true := by
    have htruthy : audioDataTruthy (.str ['Q', 'Q', ' ', '=', '=']) = true := by
      decide
    simp only [FrameProcessor.isValidPayload, htruthy, hsize,
      maxReasonableChunkSizeBytes]
    norm_num
  have hsan : FrameProcessor.sanitizeBase64 ['Q', 'Q', ' ', '=', '=']
      = some ['Q', 'Q', '=', '='] := by decide
  simp [FrameProcessor.parseChunk, hvalid, FrameProcessor.normalizeAudioData, hsan]

/-- C2 (amended): `parseChunk` on a payload of decoded byte size 0, of
decoded byte size above 64 KiB, or on a string payload whose
whitespace-stripped form fails the base64 format check returns the empty
frame sequence and leaves the processor unchanged (no error escapes — the
model is total); and every `parseChunk` call returns at most one frame. -/
theorem parseChunk_invalid_input_empty (fp : FrameProcessor) (now : Nat)
    (payload : IAudioPlayPayload)
    (h : FrameProcessor.getByteSize payload.audioData = 0
       ∨ maxReasonableChunkSizeBytes < FrameProcessor.getByteSize payload.audioData
       ∨ ∃ s, payload.audioData = .str s
           ∧ validBase64Test (stripJsWhitespace s) = false) :
    fp.parseChunk now payload = ([], fp)
    ∧ ∀ (fp2 : FrameProcessor) (now2 : Nat) (p2 : IAudioPlayPayload),
        ((fp2.parseChunk now2 p2).1).length ≤ 1 := by
  constructor
  · rcases h with h | h | ⟨s, hpay, hvt⟩
    · simp [FrameProcessor.parseChunk, isValidPayload_false_of_size payload (Or.inl h)]
    · simp [FrameProcessor.parseChunk, isValidPayload_false_of_size payload (Or.inr h)]
    · by_cases hv : FrameProcessor.isValidPayload payload
      · simp [FrameProcessor.parseChunk, hv, hpay,
          FrameProcessor.normalizeAudioData, sanitizeBase64_none_of_invalid s hvt]
      · simp [FrameProcessor.parseChunk, hv]
  · intro fp2 now2 p2
    unfold FrameProcessor.parseChunk
    by_cases hv : FrameProcessor.isValidPayload p2
    · cases hn : FrameProcessor.normalizeAudioData p2.audioData <;> simp [hv, hn]
    · simp [hv]

/-- Witness for C2 (amended): a string with the invalid character `*` is
rejected with an empty sequence, and a valid chunk yields at most one
frame. -/
theorem parseChunk_invalid_input_empty_witness :
    (FrameProcessor.make 20 16000 2).parseChunk 0
        ⟨.str "ab*c".toList, none, none⟩ = ([], FrameProcessor.make 20 16000 2)
    ∧ ((FrameProcessor.make 20 16000 2).parseChunk 0
        ⟨.str "QQ==".toList, none, none⟩).1.length ≤ 1 := by
  obtain ⟨h1, h2⟩ := parseChunk_invalid_input_empty (FrameProcessor.make 20 16000 2)
    0 ⟨.str "ab*c".toList, none, none⟩
    (Or.inr (Or.inr ⟨"ab*c".toList, rfl, by decide⟩))
  exact ⟨h1, h2 _ _ _⟩

theorem parseChunk_seq_step (fp : FrameProcessor) (now : Nat)
    (p : IAudioPlayPayload) :
    ((fp.parseChunk now p).1).map IAudioFrame.sequenceNumber
      = List.range' fp.sequenceNumber ((fp.parseChunk now p).1).length
    ∧ ((fp.parseChunk now p).2).sequenceNumber
      = fp.sequenceNumber + ((fp.parseChunk now p).1).length := by
  unfold FrameProcessor.parseChunk
  by_cases hv : FrameProcessor.isValidPayload p
  · cases hn : FrameProcessor.normalizeAudioData p.audioData <;>
      simp [hv, hn, List.range']
  · simp [hv, List.range']

theorem processAll_seq :
    ∀ (chunks : List (Nat × IAudioPlayPayload)) (fp : FrameProcessor),
      ((fp.processAll chunks).1).map IAudioFrame.sequenceNumber
        = List.range' fp.sequenceNumber ((fp.processAll chunks).1).length
      ∧ ((fp.processAll chunks).2).sequenceNumber
        = fp.sequenceNumber + ((fp.processAll chunks).1).length := by
  intro chunks
  induction chunks with
  | nil =>
      intro fp
      simp [FrameProcessor.processAll, List.range']
  | cons hd rest ih =>
      intro fp
      obtain ⟨now, p⟩ := hd
      obtain ⟨hmap, hseq⟩ := parseChunk_seq_step fp now p
      obtain ⟨ihmap, ihseq⟩ := ih (fp.parseChunk now p).2
      have hout : fp.processAll ((now, p) :: rest)
          = ((fp.parseChunk now p).1 ++ (((fp.parseChunk now p).2).processAll rest).1,
             (((fp.parseChunk now p).2).processAll rest).2) := rfl
      rw [hout]
      constructor
      · simp only [List.map_append, List.length_append]
        rw [hmap, ihmap, hseq, List.range'_append_1, Nat.add_comm]
      · simp only [List.length_append]
        rw [ihseq, hseq]
        omega

/-- C6: starting from a reset processor, the sequence numbers of the frames
emitted by any series of `parseChunk` calls are exactly `0, 1, 2, …` —
they start at 0, are strictly increasing, and failed calls (which emit no
frame and leave the processor unchanged) consume no number; `reset()` sets
the counter back to 0. -/
theorem parseChunk_sequence_numbers (fp : FrameProcessor)
    (chunks : List (Nat × IAudioPlayPayload)) :
    ((fp.reset.processAll chunks).1).map IAudioFrame.sequenceNumber
      = List.range (((fp.reset.processAll chunks).1).length)
    ∧ List.Pairwise (· < ·)
        (((fp.reset.processAll chunks).1).map IAudioFrame.sequenceNumber)
    ∧ fp.reset.sequenceNumber = 0 := by
  obtain ⟨hmap, _⟩ := processAll_seq chunks fp.reset
  have h0 : fp.reset.sequenceNumber = 0 := rfl
  rw [h0] at hmap
  rw [hmap, ← List.range_eq_range']
  exact ⟨rfl, List.pairwise_lt_range _, rfl⟩

theorem b64CharAt_ne_eq (i : Nat) : b64CharAt i ≠ '=' := by
  unfold b64CharAt
  rcases Nat.lt_or_ge i base64Chars.length with h | h
  · rw [List.getD_eq_getElem base64Chars 'A' h]
    have hall : ∀ c ∈ base64Chars, c ≠ '=' := by decide
    exact hall _ (List.getElem_mem h)
  · rw [List.getD_eq_default base64Chars 'A' (Nat.le_of_lt_succ (Nat.lt_succ_of_le h))]
    decide

theorem binaryToBase64_len_pads :
    ∀ (bs : List Nat),
      (FrameProcessor.binaryToBase64 bs).length = 4 * ((bs.length + 2) / 3)
      ∧ ((FrameProcessor.binaryToBase64 bs).filter (fun c => c == '=')).length
          = (3 - bs.length % 3) % 3
  | [] => by simp [FrameProcessor.binaryToBase64]
  | [a] => by
      have hne : ∀ i, (b64CharAt i == '=') = false :=
        fun i => beq_eq_false_iff_ne.mpr (b64CharAt_ne_eq i)
      simp [FrameProcessor.binaryToBase64, hne]
  | [a, b] => by
      have hne : ∀ i, (b64CharAt i == '=') = false :=
        fun i => beq_eq_false_iff_ne.mpr (b64CharAt_ne_eq i)
      simp [FrameProcessor.binaryToBase64, hne]
  | a :: b :: c :: rest => by
      have hne : ∀ i, (b64CharAt i == '=') = false :=
        fun i => beq_eq_false_iff_ne.mpr (b64CharAt_ne_eq i)
      obtain ⟨ih1, ih2⟩ := binaryToBase64_len_pads rest
      constructor
      · simp [FrameProcessor.binaryToBase64, ih1]
        omega
      · simp [FrameProcessor.binaryToBase64, hne, ih2]
        omega

/-- C7: encoding a binary buffer of length `n` (0 < n ≤ 64 KiB) with the
repository's base64 encoder and running the decoded-byte-size estimate
(`length * 3 / 4` minus padding characters, as in `_getByteSize` /
`_calculateDuration`) recovers exactly `n` — in particular within the
claimed ≤ 2 byte tolerance. -/
theorem binaryToBase64_roundtrip_size (bytes : List Nat)
    (h1 : 0 < bytes.length) (h2 : bytes.length ≤ 65536) :
    FrameProcessor.getByteSize (.str (FrameProcessor.binaryToBase64 bytes))
      = (bytes.length : ℚ)
    ∧ |FrameProcessor.getByteSize (.str (FrameProcessor.binaryToBase64 bytes))
        - (bytes.length : ℚ)| ≤ 2 := by
  obtain ⟨hlen, hpads⟩ := binaryToBase64_len_pads bytes
  have heq : FrameProcessor.getByteSize
      (.str (FrameProcessor.binaryToBase64 bytes)) = (bytes.length : ℚ) := by
    simp only [FrameProcessor.getByteSize]
    rw [hlen, hpads]
    have key : 3 * ((bytes.length + 2) / 3)
        = bytes.length + (3 - bytes.length % 3) % 3 := by omega
    have keyQ : (3 : ℚ) * (((bytes.length + 2) / 3 : ℕ) : ℚ)
        = (bytes.length : ℚ) + (((3 - bytes.length % 3) % 3 : ℕ) : ℚ) := by
      exact_mod_cast key
    push_cast
    linarith
  exact ⟨heq, by rw [heq]; simp⟩

/-- Witness for C7: a 4-byte buffer round-trips to the estimate 4. -/
theorem binaryToBase64_roundtrip_size_witness :
    0 < ([1, 2, 3, 4] : List Nat).length
    ∧ ([1, 2, 3, 4] : List Nat).length ≤ 65536
    ∧ FrameProcessor.getByteSize
        (.str (FrameProcessor.binaryToBase64 [1, 2, 3, 4]))
        = (([1, 2, 3, 4] : List Nat).length : ℚ)
    ∧ |FrameProcessor.getByteSize
          (.str (FrameProcessor.binaryToBase64 [1, 2, 3, 4]))
        - (([1, 2, 3, 4] : List Nat).length : ℚ)| ≤ 2 := by
  obtain ⟨ha, hb⟩ := binaryToBase64_roundtrip_size [1, 2, 3, 4] (by decide) (by decide)
  exact ⟨by decide, by decide, ha, hb⟩

/-- C10: the payload `"AA=="` (one decoded byte) at bytesPerSample 2 and
sample rate 16000 is valid and yields exactly one frame whose `duration`
field is 0: the non-positive-duration sanity check sees the unrounded value
0.03125 ms and passes, and `Math.round` then turns it into 0, so the
frame-interval fallback is not applied. -/
theorem parseChunk_zero_duration_frame :
    ((FrameProcessor.make 20 16000 2).parseChunk 0
        ⟨.str "AA==".toList, none, none⟩).1.map IAudioFrame.duration = [0] := by
  have hA : "AA==".toList = ['A', 'A', '=', '='] := by decide
  rw [hA]
  have hlen : (['A', 'A', '=', '='] : List Char).length = 4 := by decide
  have hfil : ((['A', 'A', '=', '='] : List Char).filter
      (fun c => c == '=')).length = 2 := by decide
  have hsize : FrameProcessor.getByteSize (.str ['A', 'A', '=', '=']) = 1 := by
    simp only [FrameProcessor.getByteSize, hlen, hfil]
    norm_num
  have hvalid : FrameProcessor.isValidPayload
      ⟨.str ['A', 'A', '=', '='], none, none⟩ = true := by
    have htruthy : audioDataTruthy (.str ['A', 'A', '=', '=']) = true := by decide
    simp only [FrameProcessor.isValidPayload, htruthy, hsize,
      maxReasonableChunkSizeBytes]
    norm_num
  have hsan : FrameProcessor.sanitizeBase64 ['A', 'A', '=', '=']
      = some ['A', 'A', '=', '='] := by decide
  have hdur : (FrameProcessor.make 20 16000 2).calculateDuration
      ['A', 'A', '=', '='] = 0 := by
    simp only [FrameProcessor.calculateDuration, FrameProcessor.make, hlen, hfil,
      jsRound]
    have hval : (((4 : ℕ) : ℚ) * 3 / 4 - ((2 : ℕ) : ℚ)) / 2 / 16000 * 1000
        = 1 / 32 := by
      norm_num
    rw [hval]
    have hfalse : ¬((1 / 32 : ℚ) ≤ 0 ∨ (1000 : ℚ) < 1 / 32) := by norm_num
    rw [if_neg hfalse]
    have hfloor : (⌊(1 / 32 : ℚ) + 1 / 2⌋ : ℤ) = 0 := by
      rw [Int.floor_eq_zero_iff]
      constructor <;> norm_num
    rw [hfloor]
    norm_num
  simp [FrameProcessor.parseChunk, hvalid, FrameProcessor.normalizeAudioData,
    hsan, hdur]

/-- The two PCM encodings (`EncodingTypes`). -/
inductive Encoding where
  | pcm_f32le
  | pcm_s16le
deriving DecidableEq

/-- Embedding of `IAudioBufferConfig`: the jitter-buffer configuration record. -/
structure IAudioBufferConfig where
  targetBufferMs : ℚ
  minBufferMs : ℚ
  maxBufferMs : ℚ
  frameIntervalMs : ℚ
  sampleRate : Option ℚ
deriving DecidableEq

/-- A JS `Partial<IAudioBufferConfig>`: each field is present (`some`) or
absent (`none`). -/
structure AudioBufferConfigPatch where
  targetBufferMs : Option ℚ := none
  minBufferMs : Option ℚ := none
  maxBufferMs : Option ℚ := none
  frameIntervalMs : Option ℚ := none
  sampleRate : Option (Option ℚ) := none
deriving DecidableEq

/-- The spread merge `{ ...config, ...patch }`: present patch fields win. -/
def mergeConfig (cfg : IAudioBufferConfig) (p : AudioBufferConfigPatch) :
    IAudioBufferConfig :=
  { targetBufferMs := p.targetBufferMs.getD cfg.targetBufferMs,
    minBufferMs := p.minBufferMs.getD cfg.minBufferMs,
    maxBufferMs := p.maxBufferMs.getD cfg.maxBufferMs,
    frameIntervalMs := p.frameIntervalMs.getD cfg.frameIntervalMs,
    sampleRate := p.sampleRate.getD cfg.sampleRate }

/-- Embedding of `AudioBufferManager._getBytesPerSample`. -/
def getBytesPerSample : Encoding → ℚ
  | .pcm_f32le => 4
  | .pcm_s16le => 2

/-- State of an `AudioBufferManager` instance. The `QualityMonitor` member
(whose own source is not part of this repository snapshot) is modelled by
its presence only (`hasQualityMonitor`, `false` after `destroy` sets it to
null); the asynchronous playback timer is not modelled. -/
structure AudioBufferManager where
  buffer : RingBuffer
  config : IAudioBufferConfig
  frameProcessor : Option FrameProcessor
  hasQualityMonitor : Bool
  isActive : Bool
  lastPlaybackTime : ℚ
  nextSequenceNumber : Nat
  encoding : Encoding

/-- Constructor `new AudioBufferManager(config)`: merge defaults, size the ring buffer
from `maxBufferMs / frameIntervalMs` with 50% headroom (floored at 150),
and construct the processor and monitor. The default encoding is
`PCM_S16LE`, so the processor starts at 2 bytes per sample. -/
def AudioBufferManager.make (p : AudioBufferConfigPatch) : AudioBufferManager :=
  let config := mergeConfig ⟨240, 120, 480, 20, some 16000⟩ p
  let estimatedMaxFrames :=
    (⌈config.maxBufferMs / config.frameIntervalMs * (3 / 2)⌉ : ℤ).toNat
  { buffer := RingBuffer.make (max estimatedMaxFrames 150),
    config := config,
    frameProcessor := some (FrameProcessor.make config.frameIntervalMs
      (config.sampleRate.getD 16000) (getBytesPerSample .pcm_s16le)),
    hasQualityMonitor := true,
    isActive := false,
    lastPlaybackTime := 0,
    nextSequenceNumber := 0,
    encoding := .pcm_s16le }

/-- Embedding of `AudioBufferManager.getCurrentBufferMs`. -/
def AudioBufferManager.getCurrentBufferMs (m : AudioBufferManager) : ℚ :=
  m.buffer.getTotalDurationMs

/-- Embedding of `AudioBufferManager.updateConfig`: a plain spread merge of the partial
config — the code performs no clamping here. -/
def AudioBufferManager.updateConfig (m : AudioBufferManager)
    (p : AudioBufferConfigPatch) : AudioBufferManager :=
  { m with config := mergeConfig m.config p }

/-- Embedding of `AudioBufferManager.applyAdaptiveAdjustments`. `adjustment` is the value
returned by `QualityMonitor.getRecommendedAdjustment()` (whose source is
outside this snapshot); when non-zero, the new target is clamped into
`[minBufferMs, maxBufferMs]` and applied through `updateConfig`. -/
def AudioBufferManager.applyAdaptiveAdjustments (m : AudioBufferManager)
    (adjustment : ℚ) : AudioBufferManager :=
  if !m.hasQualityMonitor then m
  else if adjustment ≠ 0 then
    let newTargetMs := max m.config.minBufferMs
      (min m.config.maxBufferMs (m.config.targetBufferMs + adjustment))
    if newTargetMs ≠ m.config.targetBufferMs then
      m.updateConfig { targetBufferMs := some newTargetMs }
    else m
  else m

/-- Embedding of `AudioBufferManager.isPlaying`. -/
def AudioBufferManager.isPlaying (m : AudioBufferManager) : Bool :=
  m.isActive

/-- Embedding of `AudioBufferManager.startPlayback` (synchronous part): idempotent no-op
when already active; otherwise set the active flag and the last playback
time. The asynchronous buffer-fill wait and the scheduling loop it starts
are not modelled. -/
def AudioBufferManager.startPlayback (m : AudioBufferManager) (now : ℚ) :
    AudioBufferManager :=
  if m.isActive then m
  else { m with isActive := true, lastPlaybackTime := now }

/-- Embedding of `AudioBufferManager.stopPlayback`: deactivate, clear the store, reset
the silence sequence counter and the processor's sequencing. (Clearing the
pending timer is not modelled.) -/
def AudioBufferManager.stopPlayback (m : AudioBufferManager) : AudioBufferManager :=
  { m with
     isActive := false,
     buffer := m.buffer.clear,
     nextSequenceNumber := 0,
     frameProcessor := m.frameProcessor.map FrameProcessor.reset }

/-- Embedding of `AudioBufferManager.destroy`: stop playback, clear the store, and null
out the monitor and processor references. -/
def AudioBufferManager.destroy (m : AudioBufferManager) : AudioBufferManager :=
  let m1 := m.stopPlayback
  { m1 with
     buffer := m1.buffer.clear,
     nextSequenceNumber := 0,
     hasQualityMonitor := false,
     frameProcessor := none }

/-- Embedding of `AudioBufferManager._handleOverrun`: record the overrun (monitor state
not modelled) and, when the excess over `maxBufferMs` exceeds the 100 ms
hysteresis margin, drop the frames-equivalent of the excess. -/
def AudioBufferManager.handleOverrun (m : AudioBufferManager) : AudioBufferManager :=
  let excessMs := m.getCurrentBufferMs - m.config.maxBufferMs
  if 100 < excessMs then
    let framesToDrop := (⌊excessMs / m.config.frameIntervalMs⌋ : ℤ).toNat
    { m with buffer := (m.buffer.dropOldest framesToDrop).2 }
  else m

/-- Embedding of `AudioBufferManager.enqueueFrames`: no-op on a destroyed instance
(null processor or monitor); otherwise parse the payload, push every
resulting frame, and handle overrun synchronously if the buffer now
exceeds `maxBufferMs`. -/
def AudioBufferManager.enqueueFrames (m : AudioBufferManager) (now : Nat)
    (audioData : IAudioPlayPayload) : AudioBufferManager :=
  match m.frameProcessor with
  | none => m
  | some fp =>
      if !m.hasQualityMonitor then m
      else
        let out := fp.parseChunk now audioData
        let m1 := { m with
          frameProcessor := some out.2,
          buffer := out.1.foldl (fun b f => (b.push f).2) m.buffer }
        if m1.config.maxBufferMs < m1.getCurrentBufferMs then m1.handleOverrun
        else m1

/-- Embedding of `AudioBufferManager._calculateNextInterval`: `frameIntervalMs` minus the
drift of the current time from the expected time of the previous tick,
floored at 1 ms. -/
def AudioBufferManager.calculateNextInterval (m : AudioBufferManager)
    (currentTime : ℚ) : ℚ :=
  let expectedTime := m.lastPlaybackTime + m.config.frameIntervalMs
  let drift := currentTime - expectedTime
  max 1 (m.config.frameIntervalMs - drift)

/-- C4 counterexample: on a freshly constructed manager (default config,
`targetBufferMs = 240`), `updateConfig({ minBufferMs: 1000 })` leaves
`targetBufferMs < minBufferMs` — the merge performs no clamping, so the
invariant `minBufferMs ≤ targetBufferMs` does not hold when `updateConfig`
returns. -/
theorem updateConfig_violates_invariant :
    ((AudioBufferManager.make {}).updateConfig
        { minBufferMs := some 1000 }).config.targetBufferMs
      < ((AudioBufferManager.make {}).updateConfig
        { minBufferMs := some 1000 }).config.minBufferMs := by
  show (240 : ℚ) < 1000
  norm_num

/-- C4 (amended): `updateConfig` itself is an unclamped merge and can leave
the ordering violated; the clamping the spec describes happens in
`applyAdaptiveAdjustments`, which — when the monitor is present, the
recommended adjustment is non-zero, and `minBufferMs ≤ maxBufferMs` —
leaves `minBufferMs ≤ targetBufferMs ≤ maxBufferMs` on return. -/
theorem applyAdaptiveAdjustments_clamps (m : AudioBufferManager) (adjustment : ℚ)
    (hmm : m.config.minBufferMs ≤ m.config.maxBufferMs)
    (hadj : adjustment ≠ 0) (hmon : m.hasQualityMonitor = true) :
    (m.applyAdaptiveAdjustments adjustment).config.minBufferMs
      ≤ (m.applyAdaptiveAdjustments adjustment).config.targetBufferMs
    ∧ (m.applyAdaptiveAdjustments adjustment).config.targetBufferMs
      ≤ (m.applyAdaptiveAdjustments adjustment).config.maxBufferMs := by
  unfold AudioBufferManager.applyAdaptiveAdjustments
  simp only [hmon, Bool.not_true, Bool.false_eq_true, if_false]
  rw [if_pos hadj]
  by_cases hne : max m.config.minBufferMs
      (min m.config.maxBufferMs (m.config.targetBufferMs + adjustment))
      ≠ m.config.targetBufferMs
  · rw [if_pos hne]
    constructor
    · show m.config.minBufferMs
          ≤ max m.config.minBufferMs
              (min m.config.maxBufferMs (m.config.targetBufferMs + adjustment))
      exact le_max_left _ _
    · show max m.config.minBufferMs
          (min m.config.maxBufferMs (m.config.targetBufferMs + adjustment))
          ≤ m.config.maxBufferMs
      exact max_le hmm (min_le_left _ _)
  · rw [if_neg hne]
    push_neg at hne
    constructor
    · show m.config.minBufferMs ≤ m.config.targetBufferMs
      rw [← hne]
      exact le_max_left _ _
    · show m.config.targetBufferMs ≤ m.config.maxBufferMs
      conv_lhs => rw [← hne]
      exact max_le hmm (min_le_left _ _)

/-- Witness for C4 (amended): default config, recommendation +300 is
clamped so that `120 ≤ target ≤ 480` holds afterwards. -/
theorem applyAdaptiveAdjustments_clamps_witness :
    (AudioBufferManager.make {}).config.minBufferMs
        ≤ (AudioBufferManager.make {}).config.maxBufferMs
    ∧ (300 : ℚ) ≠ 0
    ∧ (AudioBufferManager.make {}).hasQualityMonitor = true
    ∧ ((AudioBufferManager.make {}).applyAdaptiveAdjustments 300).config.minBufferMs
        ≤ ((AudioBufferManager.make {}).applyAdaptiveAdjustments
            300).config.targetBufferMs
    ∧ ((AudioBufferManager.make {}).applyAdaptiveAdjustments
          300).config.targetBufferMs
        ≤ ((AudioBufferManager.make {}).applyAdaptiveAdjustments
            300).config.maxBufferMs := by
  have hmm : (AudioBufferManager.make {}).config.minBufferMs
      ≤ (AudioBufferManager.make {}).config.maxBufferMs := by
    show (120 : ℚ) ≤ 480
    norm_num
  obtain ⟨h1, h2⟩ := applyAdaptiveAdjustments_clamps (AudioBufferManager.make {})
    300 hmm (by norm_num) rfl
  exact ⟨hmm, by norm_num, rfl, h1, h2⟩

/-- C5 counterexample: `destroy()` followed by `startPlayback()` flips the
active flag back on, so `isPlaying()` reports `true` again — a destroyed
instance silently resumes instead of failing loudly. -/
theorem destroy_then_startPlayback_reports_playing :
    (((AudioBufferManager.make {}).destroy).startPlayback 1000).isPlaying
      = true := rfl

/-- C5 (amended): after `destroy()`, `enqueueFrames` and
`applyAdaptiveAdjustments` are guarded no-ops (the nulled processor and
monitor short-circuit them) and `isPlaying()` reports `false`; but
`startPlayback` is not guarded: it sets the active flag, after which
`isPlaying()` reports `true` — no programmer-error signal is raised. -/
theorem destroyed_instance_behaviour (m : AudioBufferManager) (now : Nat)
    (p : IAudioPlayPayload) (adjustment t : ℚ) :
    (m.destroy).enqueueFrames now p = m.destroy
    ∧ (m.destroy).applyAdaptiveAdjustments adjustment = m.destroy
    ∧ (m.destroy).isPlaying = false
    ∧ ((m.destroy).startPlayback t).isPlaying = true := by
  refine ⟨rfl, ?_, rfl, rfl⟩
  unfold AudioBufferManager.applyAdaptiveAdjustments
  have hmon : (m.destroy).hasQualityMonitor = false := rfl
  rw [hmon]
  simp

/-- C8: the next tick delay equals `frameIntervalMs` minus the observed
drift (current time minus the expected time `lastPlaybackTime +
frameIntervalMs`), floored at 1 ms. -/
theorem calculateNextInterval_formula (m : AudioBufferManager)
    (currentTime : ℚ) :
    m.calculateNextInterval currentTime
      = max 1 (m.config.frameIntervalMs
          - (currentTime - (m.lastPlaybackTime + m.config.frameIntervalMs)))
    ∧ 1 ≤ m.calculateNextInterval currentTime := by
  refine ⟨rfl, ?_⟩
  unfold AudioBufferManager.calculateNextInterval
  exact le_max_left _ _

/-- Embedding of `IRetryConfig` from the repository's types. -/
structure IRetryConfig where
  maxRetries : Nat
  initialDelayMs : ℚ
  maxDelayMs : ℚ
  backoffMultiplier : ℚ
  useJitter : Bool
deriving DecidableEq

/-- Embedding of `DEFAULT_RETRY_CONFIG`. -/
def DEFAULT_RETRY_CONFIG : IRetryConfig := ⟨3, 50, 1000, 2, true⟩

/-- Embedding of `RetryHandler._calculateDelay`: exponential backoff capped at
`maxDelayMs`, with an optional ±25% jitter factor `0.75 + random * 0.5`
applied before `Math.round`. `rand` models the `Math.random()` draw. -/
def RetryHandler.calculateDelay (cfg : IRetryConfig) (attempt : Nat)
    (rand : ℚ) : ℚ :=
  let delay := cfg.initialDelayMs * cfg.backoffMultiplier ^ attempt
  let capped := min delay cfg.maxDelayMs
  if cfg.useJitter then
    let jitterFactor := 3 / 4 + rand * (1 / 2)
    jsRound (capped * jitterFactor)
  else capped

/-- The retry loop of `RetryHandler.execute`. `op i` is the outcome of the
i-th attempt of the wrapped operation, `rand i` the `Math.random()` draw of
the delay computed after it; `remaining` counts the attempts still allowed
after this one (`maxRetries - attempt`). Returns the final outcome, the
list of delays slept, and the number of attempts made. -/
def RetryHandler.executeLoop {ε α : Type} (cfg : IRetryConfig)
    (op : Nat → Except ε α) (rand : Nat → ℚ) :
    Nat → Nat → Except ε α × List ℚ × Nat
  | attempt, 0 =>
      (match op attempt with
       | .ok a => (.ok a, [], 1)
       | .error e => (.error e, [], 1))
  | attempt, r + 1 =>
      (match op attempt with
       | .ok a => (.ok a, [], 1)
       | .error _ =>
           let d := RetryHandler.calculateDelay cfg attempt (rand attempt)
           let rest := RetryHandler.executeLoop cfg op rand (attempt + 1) r
           (rest.1, d :: rest.2.1, rest.2.2 + 1))

/-- Embedding of `RetryHandler.execute`: run the loop from attempt 0 with `maxRetries`
further attempts allowed; when every attempt fails the last error is
propagated (the first component is that `Except.error`). -/
def RetryHandler.execute {ε α : Type} (cfg : IRetryConfig)
    (op : Nat → Except ε α) (rand : Nat → ℚ) : Except ε α × List ℚ × Nat :=
  RetryHandler.executeLoop cfg op rand 0 cfg.maxRetries

/-- Embedding of `RetryHandler.executeSafe`: like `execute` but a final failure is
swallowed and `null` (`none`) is returned. -/
def RetryHandler.executeSafe {ε α : Type} (cfg : IRetryConfig)
    (op : Nat → Except ε α) (rand : Nat → ℚ) : Option α :=
  match (RetryHandler.execute cfg op rand).1 with
  | .ok a => some a
  | .error _ => none

theorem executeLoop_attempts {ε α : Type} (cfg : IRetryConfig)
    (op : Nat → Except ε α) (rand : Nat → ℚ) :
    ∀ (r attempt : Nat),
      (RetryHandler.executeLoop cfg op rand attempt r).2.2 ≤ r + 1 := by
  intro r
  induction r with
  | zero =>
      intro attempt
      unfold RetryHandler.executeLoop
      cases op attempt <;> simp
  | succ r ih =>
      intro attempt
      unfold RetryHandler.executeLoop
      cases op attempt <;> simp
      have := ih (attempt + 1)
      omega

theorem executeLoop_delays {ε α : Type} (cfg : IRetryConfig)
    (op : Nat → Except ε α) (rand : Nat → ℚ) :
    ∀ (r attempt k : Nat),
      k < (RetryHandler.executeLoop cfg op rand attempt r).2.1.length →
      (RetryHandler.executeLoop cfg op rand attempt r).2.1.getD k 0
        = RetryHandler.calculateDelay cfg (attempt + k) (rand (attempt + k)) := by
  intro r
  induction r with
  | zero =>
      intro attempt k hk
      unfold RetryHandler.executeLoop at hk
      cases h : op attempt with
      | ok a =>
          rw [h] at hk
          have hk2 : k < ([] : List ℚ).length := hk
          simp at hk2
      | error e =>
          rw [h] at hk
          have hk2 : k < ([] : List ℚ).length := hk
          simp at hk2
  | succ r ih =>
      intro attempt k hk
      unfold RetryHandler.executeLoop at hk ⊢
      cases h : op attempt with
      | ok a =>
          rw [h] at hk
          have hk2 : k < ([] : List ℚ).length := hk
          simp at hk2
      | error e =>
          rw [h] at hk
          have hk2 : k < (RetryHandler.calculateDelay cfg attempt (rand attempt)
              :: (RetryHandler.executeLoop cfg op rand (attempt + 1) r).2.1).length :=
            hk
          show (RetryHandler.calculateDelay cfg attempt (rand attempt)
              :: (RetryHandler.executeLoop cfg op rand (attempt + 1) r).2.1).getD k 0
            = RetryHandler.calculateDelay cfg (attempt + k) (rand (attempt + k))
          cases k with
          | zero => simp
          | succ k =>
              rw [List.getD_cons_succ]
              rw [List.length_cons] at hk2
              have := ih (attempt + 1) k (by omega)
              rw [this]
              have harith : attempt + 1 + k = attempt + (k + 1) := by omega
              rw [harith]

theorem executeLoop_all_fail {ε α : Type} (cfg : IRetryConfig)
    (op : Nat → Except ε α) (rand : Nat → ℚ) :
    ∀ (r attempt : Nat),
      (∀ i, attempt ≤ i → i ≤ attempt + r → ∃ e, op i = Except.error e) →
      (RetryHandler.executeLoop cfg op rand attempt r).1 = op (attempt + r) := by
  intro r
  induction r with
  | zero =>
      intro attempt h
      obtain ⟨e, he⟩ := h attempt (Nat.le_refl _) (by omega)
      unfold RetryHandler.executeLoop
      rw [Nat.add_zero, he]
  | succ r ih =>
      intro attempt h
      obtain ⟨e, he⟩ := h attempt (Nat.le_refl _) (by omega)
      unfold RetryHandler.executeLoop
      rw [he]
      simp only
      have := ih (attempt + 1) (fun i hi1 hi2 => h i (by omega) (by omega))
      rw [this]
      have harith : attempt + 1 + r = attempt + (r + 1) := by omega
      rw [harith]

/-- C9: `execute` makes at most `maxRetries + 1` attempts; the delay before
retry `k` (0-based index `k` in the slept-delay list, i.e. the (k+1)-st
retry) is `min(initialDelayMs · backoffMultiplier^k, maxDelayMs)` without
jitter, and with jitter it is that base value times a factor in
`[0.75, 1.25]` (then rounded); when every attempt fails, `execute`
propagates the outcome of the last attempt (the last error) and
`executeSafe` returns `none` instead. -/
theorem retryHandler_backoff_spec {ε α : Type} (cfg : IRetryConfig)
    (op : Nat → Except ε α) (rand : Nat → ℚ) :
    (RetryHandler.execute cfg op rand).2.2 ≤ cfg.maxRetries + 1
    ∧ (∀ k, k < (RetryHandler.execute cfg op rand).2.1.length →
        (RetryHandler.execute cfg op rand).2.1.getD k 0
            = RetryHandler.calculateDelay cfg k (rand k)
        ∧ (cfg.useJitter = false →
            (RetryHandler.execute cfg op rand).2.1.getD k 0
              = min (cfg.initialDelayMs * cfg.backoffMultiplier ^ k)
                  cfg.maxDelayMs)
        ∧ (cfg.useJitter = true → 0 ≤ rand k → rand k ≤ 1 →
            ∃ factor, 3 / 4 ≤ factor ∧ factor ≤ 5 / 4
              ∧ (RetryHandler.execute cfg op rand).2.1.getD k 0
                  = jsRound (min (cfg.initialDelayMs * cfg.backoffMultiplier ^ k)
                      cfg.maxDelayMs * factor)))
    ∧ ((∀ i, i ≤ cfg.maxRetries → ∃ e, op i = Except.error e) →
        (RetryHandler.execute cfg op rand).1 = op cfg.maxRetries
        ∧ RetryHandler.executeSafe cfg op rand = none) := by
  refine ⟨executeLoop_attempts cfg op rand cfg.maxRetries 0, ?_, ?_⟩
  · intro k hk
    have hdel : (RetryHandler.execute cfg op rand).2.1.getD k 0
        = RetryHandler.calculateDelay cfg (0 + k) (rand (0 + k)) :=
      executeLoop_delays cfg op rand cfg.maxRetries 0 k hk
    rw [Nat.zero_add] at hdel
    refine ⟨hdel, ?_, ?_⟩
    · intro hj
      rw [hdel]
      unfold RetryHandler.calculateDelay
      rw [hj]
      simp
    · intro hj h0 h1
      refine ⟨3 / 4 + rand k * (1 / 2), by linarith, by linarith, ?_⟩
      rw [hdel]
      unfold RetryHandler.calculateDelay
      rw [hj]
      simp
  · intro hfail
    have hexec : (RetryHandler.execute cfg op rand).1 = op (0 + cfg.maxRetries) :=
      executeLoop_all_fail cfg op rand cfg.maxRetries 0
        (fun i hi1 hi2 => hfail i (by omega))
    rw [Nat.zero_add] at hexec
    refine ⟨hexec, ?_⟩
    obtain ⟨e, he⟩ := hfail cfg.maxRetries (Nat.le_refl _)
    unfold RetryHandler.executeSafe
    rw [hexec, he]

/-- An operation that fails on every attempt, and two random streams, used
by the C9 witness. -/
def alwaysFailOp : Nat → Except String Nat := fun _ => Except.error "boom"

def randZero : Nat → ℚ := fun _ => 0

def randHalf : Nat → ℚ := fun _ => 1 / 2

/-- Witness for C9: with `maxRetries = 2` and every attempt failing, at most
3 attempts are made, the delay before the second retry is
`min(50 · 2¹, 1000)`, a jittered delay is the rounded base times a factor
in `[0.75, 1.25]`, the last error is propagated, and `executeSafe` returns
`none`. -/
theorem retryHandler_backoff_spec_witness :
    (RetryHandler.execute ⟨2, 50, 1000, 2, false⟩ alwaysFailOp randZero).2.2 ≤ 2 + 1
    ∧ (RetryHandler.execute ⟨2, 50, 1000, 2, false⟩ alwaysFailOp randZero).2.1.getD 1 0
        = min ((50 : ℚ) * 2 ^ 1) 1000
    ∧ (∃ factor, (3 : ℚ) / 4 ≤ factor ∧ factor ≤ 5 / 4
        ∧ (RetryHandler.execute ⟨2, 50, 1000, 2, true⟩ alwaysFailOp
            randHalf).2.1.getD 0 0
            = jsRound (min ((50 : ℚ) * 2 ^ 0) 1000 * factor))
    ∧ (RetryHandler.execute ⟨2, 50, 1000, 2, false⟩ alwaysFailOp randZero).1
        = alwaysFailOp 2
    ∧ RetryHandler.executeSafe ⟨2, 50, 1000, 2, false⟩ alwaysFailOp randZero
        = none := by
  obtain ⟨h1, h2, h3⟩ :=
    retryHandler_backoff_spec ⟨2, 50, 1000, 2, false⟩ alwaysFailOp randZero
  obtain ⟨_, h2j, _⟩ :=
    retryHandler_backoff_spec ⟨2, 50, 1000, 2, true⟩ alwaysFailOp randHalf
  have hfail : ∀ i, i ≤ (2 : Nat) → ∃ e, alwaysFailOp i = Except.error e :=
    fun i _ => ⟨"boom", rfl⟩
  obtain ⟨hlast, hsafe⟩ := h3 hfail
  refine ⟨h1, (h2 1 (by decide)).2.1 rfl, ?_, hlast, hsafe⟩
  exact (h2j 0 (by decide)).2.2 rfl (by norm_num [randHalf]) (by norm_num [randHalf])

end ExpoAudioStream
